import Mathlib

/-!
# Verification of the ActivitySim workflow/state core against its specification

This file gives a shallow embedding, in Lean 4, of the parts of the
ActivitySim repository that the specification's claims are about:

* the context/state store of `activitysim/core/workflow/state.py`
  (`State.get`, `State.set`, `State.drop`, `State.add_table`), including the
  predicate-based cache-invalidation cascade;
* the checkpointed table registry of the same file (`State.get_table`,
  `State.extend_table`), together with a checkpoint manager modelled from the
  specification (the `Checkpoints` class itself is not among the provided
  source files);
* the MAZ-within-TAZ disaggregation algorithm `choose_MAZ_for_TAZ` and the
  segment loop of `run_tour_od` from
  `activitysim/abm/models/util/tour_od.py`.

Python dictionaries are embedded as association lists with a
"first match wins" lookup; numpy floating point arithmetic is embedded as
exact rational arithmetic (`ℚ`); pandas dataframes are embedded as explicit
index/column/cell structures.
-/
namespace ActivitySim

/-! ## Association lists: the embedding of Python `dict`

`alookup` is `dict.get(key)` (first matching entry wins), `aset` is
`dict[key] = value` (it replaces any existing entry for the key), `aerase`
is `del dict[key]`.  Insertion order of a Python dict is irrelevant to every
claim below, so `aset` is free to put the updated entry at the front. -/
def alookup {α β : Type} [DecidableEq α] : List (α × β) → α → Option β
  | [], _ => none
  | e :: rest, k => if e.1 = k then some e.2 else alookup rest k

def aerase {α β : Type} [DecidableEq α] : List (α × β) → α → List (α × β)
  | [], _ => []
  | e :: rest, k => if e.1 = k then aerase rest k else e :: aerase rest k

def aset {α β : Type} [DecidableEq α] (l : List (α × β)) (k : α) (v : β) : List (α × β) :=
  (k, v) :: aerase l k

def amem {α β : Type} [DecidableEq α] (l : List (α × β)) (k : α) : Prop :=
  (alookup l k).isSome

instance {α β : Type} [DecidableEq α] (l : List (α × β)) (k : α) : Decidable (amem l k) := by
  unfold amem; infer_instance

/-! ## The context store (`State` in `activitysim/core/workflow/state.py`)

The context (`self._context`) is a string-keyed dictionary.  Values are
arbitrary Python objects; the embedding distinguishes `None` (which
`State.get` conflates with absence), numbers, strings and opaque tables. -/
/-- A Python value stored in the context.  `vnone` is Python's `None`. -/
inductive Value : Type
  | vnone : Value
  | vnat : Nat → Value
  | vstr : String → Value
  deriving DecidableEq, Repr

/-- The context: a Python dict from string keys to values. -/
abbrev Ctx : Type := List (String × Value)

/-- Transitive registration in `State._PREDICATES`: `PredReach preds k d`
holds when `d` is reachable from `k` through one or more predicate edges,
i.e. `d` is "transitively registered as predicated on `k`". -/
inductive PredReach (preds : String → List String) : String → String → Prop
  | head {k d : String} (h : d ∈ preds k) : PredReach preds k d
  | tail {k m d : String} (h : PredReach preds k m) (h2 : d ∈ preds m) :
      PredReach preds k d

/-- Reachability through the predicate graph along a chain whose every key
after the starting key is present in the context `c`.  This is the set of
keys the recursive `State.drop` cascade can actually reach, because the
cascade recurses into a dependent only `if i in self._context`. -/
inductive PredReachIn (preds : String → List String) (c : Ctx) :
    String → String → Prop
  | head {k d : String} (h : d ∈ preds k) (hm : amem c d) : PredReachIn preds c k d
  | tail {k m d : String} (h : PredReachIn preds c k m) (h2 : d ∈ preds m)
      (hm : amem c d) : PredReachIn preds c k d

/-- `State.drop` (state.py:707-721), fuel-indexed.  `drop` deletes the key
from the context, then for every key `i` registered as predicated on it that
is still in the context, recursively drops `i`.  The Python recursion
terminates because every recursive call happens on a strictly smaller
context; `fuel = |context|` always suffices, and `dropState`/`setState`
below instantiate the fuel that way. -/
def dropFuel (preds : String → List String) : Nat → String → Ctx → Ctx
  | 0, _, c => c
  | n + 1, k, c =>
    (preds k).foldl
      (fun acc i => if amem acc i then dropFuel preds n i acc else acc)
      (aerase c k)

/-- The dependent-processing loop shared by `State.drop` and `State.set`:
`for i in self._PREDICATES.get(key, []): if i in self._context: self.drop(i)`. -/
def dropCascade (preds : String → List String) (n : Nat) (ks : List String)
    (c : Ctx) : Ctx :=
  ks.foldl (fun acc i => if amem acc i then dropFuel preds n i acc else acc) c

/-- `State.drop` with sufficient fuel. -/
def dropState (preds : String → List String) (k : String) (c : Ctx) : Ctx :=
  dropFuel preds c.length k c

/-- `State.set` (state.py:690-705): writes `value` under `key`, then runs the
invalidation loop over the keys registered as predicated on `key`. -/
def setState (preds : String → List String) (k : String) (v : Value) (c : Ctx) : Ctx :=
  dropCascade preds (aset c k v).length (preds k) (aset c k v)

/-- The bundle of facts established about one pass of the dependent-dropping
loop `dropCascade preds n ks c`, whose result is `r`:
length does not grow; surviving keys keep their values; every removed key is
either listed in `ks` or reachable from a listed, context-present key through
a context-present chain; the removed set is closed under present dependents;
and every listed key is removed. -/
def CascadeProps (preds : String → List String) (ks : List String)
    (c r : Ctx) : Prop :=
  (r.length ≤ c.length) ∧
  (∀ x, amem r x → alookup r x = alookup c x) ∧
  (∀ x, amem c x → ¬ amem r x →
    ∃ y ∈ ks, y = x ∨ (amem c y ∧ PredReachIn preds c y x)) ∧
  (∀ x, amem c x → ¬ amem r x → ∀ y ∈ preds x, ¬ amem r y) ∧
  (∀ k ∈ ks, ¬ amem r k)

/-! ## `State.get`, `State.set`, `State.add_table` (state.py:658-705, 780-787)

The pieces of a `State` that these methods consult: the context, the
predicate registry, the edited-table status dict, the declared temporary
names, the filesystem attribute collaborator (`getattr(self.filesystem,
key, None)`, where `self.filesystem` is the `FileSystem` configuration
object; an uninitialized filesystem, whose `StateAccessError` is swallowed,
is the constant-`none` function), and the class-level loader registries
`_LOADABLE_TABLES` and `_LOADABLE_OBJECTS`, each mapping a key to a loader
function that receives the context. -/
structure CtxState : Type where
  ctx : Ctx
  preds : String → List String
  status : List (String × Bool)
  tempNames : List String
  fsAttr : String → Option Value
  loadTables : String → Option (Ctx → Value)
  loadObjects : String → Option (Ctx → Value)

/-- The error raised when `State.get` finds no value and has no default:
`self._context.assert_key_has_value(key=key, caller=...)` raises a
key-naming state-access error (the `pypyr` context's
`KeyNotInContextError` / `KeyInContextHasNoValueError`), so the trailing
`raise KeyError(key)` is unreachable.  Modelled from the spec: a distinct
"state access" error naming the key. -/
inductive GetErr : Type
  | missingKey : String → GetErr
  deriving DecidableEq, Repr

/-- `State.get` (state.py:658-688) for a string key.  Mirrors the source's
cascade of `if result is None` checks: the context value (`dict.get(key,
None)` conflates a stored `None` with absence), then the filesystem
attribute, then a `_LOADABLE_TABLES` loader, `elif` a `_LOADABLE_OBJECTS`
loader, then the default (`NO_DEFAULT` sentinel modelled as `none`), else
the key-naming error.  `get_formatted_value` is the identity here: the
embedded values carry no pypyr formatting placeholders. -/
def getValue (st : CtxState) (key : String) (default : Option Value) :
    Except GetErr Value :=
  let r0 := (alookup st.ctx key).getD Value.vnone
  let r1 := if r0 = Value.vnone then (st.fsAttr key).getD Value.vnone else r0
  let r2 :=
    if r1 = Value.vnone then
      match st.loadTables key with
      | some f => f st.ctx
      | none =>
        match st.loadObjects key with
        | some f => f st.ctx
        | none => Value.vnone
    else r1
  if r2 = Value.vnone then
    match default with
    | some d => Except.ok d
    | none => Except.error (GetErr.missingKey key)
  else Except.ok r2

/-- `State.get` paired with the state after the call.  The source of
`State.get` performs no write to `self._context`, so the state comes back
unchanged. -/
def getCall (st : CtxState) (key : String) (default : Option Value) :
    Except GetErr Value × CtxState :=
  (getValue st key default, st)

/-- `State.set` acting on the full state. -/
def setCall (st : CtxState) (key : String) (v : Value) : CtxState :=
  { st with ctx := setState st.preds key v st.ctx }

/-- `State.add_table` (state.py:780-787): computes salience (`salient = name
not in self._TEMP_NAMES` when not given), marks the table edited in
`existing_table_status`, and caches the content via `self.set`. -/
def addTableCtx (st : CtxState) (name : String) (content : Value)
    (salient : Option Bool) : CtxState :=
  let sal := salient.getD (!st.tempNames.contains name)
  let st1 := if sal then { st with status := aset st.status name true } else st
  setCall st1 name content

/-! ## The checkpointed table registry (`State.get_table`,
`State.add_table`, checkpoint manager)

Tables are embedded as opaque version identifiers (`Nat`): every claim in
this area is about *which* stored version an operation yields, not about
the contents of a dataframe.  The checkpoint manager (`self.checkpoint`,
class `Checkpoints` of `activitysim/core/workflow/checkpoint.py`) is not
among the provided source files; `addCheckpoint` below is modelled from
the specification.  `State.get_table` itself is translated from
state.py:831-899. -/
/-- One record of the append-only checkpoint log
(`self.checkpoint.checkpoints`): the checkpoint's name plus, for every
known table, the name of the checkpoint at which its current version was
stored (`""` is the empty "dropped" marker). -/
structure CheckpointRec : Type where
  name : String
  tables : List (String × String)
  deriving DecidableEq, Repr

/-- The state consulted by the table registry: the context entries for
table names, `existing_table_status`, `self.checkpoint.last_checkpoint`,
`self.checkpoint.checkpoints` and the pipeline store
(`{table}/{checkpoint}` keys). -/
structure PipState : Type where
  ctx : List (String × Nat)
  status : List (String × Bool)
  lastCheckpoint : List (String × String)
  checkpoints : List CheckpointRec
  store : List ((String × String) × Nat)

/-- `State.is_table` (state.py:789-790): key membership in
`existing_table_status`. -/
def isTable (st : PipState) (name : String) : Bool :=
  (alookup st.status name).isSome

/-- `State.get_table` (state.py:831-899).  Success carries
`Option Nat` because `self._context.get(table_name)` yields `None` when the
table is not in the context. -/
def getTable (st : PipState) (tableName : String)
    (checkpointName : Option String) : Except String (Option Nat) :=
  if (alookup st.lastCheckpoint tableName).isNone && isTable st tableName then
    match checkpointName with
    | some cn =>
      Except.error ("get_table: checkpoint_name ('" ++ cn ++
        "') not supported for non-checkpointed table '" ++ tableName ++ "'")
    | none => Except.ok (alookup st.ctx tableName)
  else
    match checkpointName with
    | none =>
      match alookup st.lastCheckpoint tableName with
      | none => Except.error ("table '" ++ tableName ++ "' never checkpointed.")
      | some lc =>
        if lc = "" then Except.error ("table '" ++ tableName ++ "' was dropped.")
        else Except.ok (alookup st.ctx tableName)
    | some cn =>
      match st.checkpoints.find? (fun cp => cp.name = cn) with
      | none => Except.error ("checkpoint '" ++ cn ++ "' not in checkpoints.")
      | some checkpoint =>
        let lastCheckpointName := (alookup checkpoint.tables tableName).getD ""
        if lastCheckpointName = "" then
          Except.error ("table '" ++ tableName ++ "' not in checkpoint '" ++ cn ++ "'.")
        else if alookup st.lastCheckpoint tableName = some lastCheckpointName then
          Except.ok (alookup st.ctx tableName)
        else Except.ok (alookup st.store (tableName, lastCheckpointName))

/-- `State.add_table` for a salient table in the pipeline view
(state.py:780-787): record `existing_table_status[name] = True`, then cache
the content via `self.set`.  Table names carry no registered entries in
`_PREDICATES`, so `set` is plain dict assignment here. -/
def addTablePipe (st : PipState) (name : String) (v : Nat) : PipState :=
  { st with status := aset st.status name true, ctx := aset st.ctx name v }

/-- Modelled from the spec: `add_checkpoint` of the checkpoint manager
(`Checkpoints.add`, in `activitysim/core/workflow/checkpoint.py`, which is
not among the provided source files).  "for every currently salient table,
record either its just-written storage key or, if unchanged since the prior
checkpoint, reuse the existing reference": every table marked edited in
`existing_table_status` is written to the store under
`{table}/{checkpoint}` and `last_checkpoint[table]` becomes this
checkpoint's name; unedited tables keep their existing reference; the new
checkpoint record snapshots the updated `last_checkpoint` mapping and is
appended to the ordered log. -/
def addCheckpoint (st : PipState) (name : String) : PipState :=
  let edited := (st.status.filter (fun e => e.2)).map (fun e => e.1)
  let store' := edited.foldl
    (fun s t =>
      match alookup st.ctx t with
      | some v => aset s (t, name) v
      | none => s)
    st.store
  let last' := edited.foldl (fun l t => aset l t name) st.lastCheckpoint
  { st with
    store := store'
    lastCheckpoint := last'
    status := st.status.map (fun e => (e.1, false))
    checkpoints := st.checkpoints ++ [⟨name, last'⟩] }

/-- "the error message names X": X occurs verbatim inside the message. -/
def NamesIn (needle msg : String) : Prop :=
  needle.data <:+: msg.data

/-! ## Dataframes and `State.extend_table` (state.py:901-941)

A pandas dataframe is embedded as an index (row labels), an ordered list of
columns with their dtypes (`"O"` = object/string vs. everything else), and
a cell map with `NaN` (`Cell.na`) for missing entries.  `pd.concat(...,
sort=False, axis=0)` keeps the first frame's column order and appends the
second frame's unseen columns; cells absent from either side are `NaN`.
Numeric dtype upcasting under concatenation is not modelled: no claim
depends on it. -/
inductive Dtype : Type
  | obj : Dtype
  | numeric : Dtype
  deriving DecidableEq, Repr

inductive Cell : Type
  | na : Cell
  | cstr : String → Cell
  | cnum : Int → Cell
  deriving DecidableEq, Repr

structure DF : Type where
  index : List Int
  cols : List (String × Dtype)
  cells : List ((Int × String) × Cell)
  deriving DecidableEq, Repr

/-- Reading one cell; a missing entry is `NaN`. -/
def getCell (df : DF) (i : Int) (c : String) : Cell :=
  (alookup df.cells (i, c)).getD Cell.na

/-- `pd.concat([old, new], sort=False, axis=0)`. -/
def concatRows (old new : DF) : DF :=
  { index := old.index ++ new.index
    cols := old.cols ++ new.cols.filter
      (fun cd => !(old.cols.map (fun od => od.1)).contains cd.1)
    cells := old.cells ++ new.cells }

/-- `df[c] = df[c].fillna("")`: every `NaN` cell of column `c` (explicit or
missing) becomes the empty string. -/
def fillnaCol (df : DF) (c : String) : DF :=
  { df with
    cells :=
      df.cells.map (fun e =>
        (e.1, if e.1.2 = c ∧ e.2 = Cell.na then Cell.cstr "" else e.2)) ++
      df.index.filterMap (fun i =>
        if (alookup df.cells (i, c)).isNone then some ((i, c), Cell.cstr "")
        else none) }

/-- `State.extend_table` (state.py:901-941) acting on the dataframes: the
current table (if registered), the new frame, and the axis.  Axis 0 asserts
disjoint indices, concatenates rows, and backfills the existing
object-dtype columns that the new frame lacks with `""`; axis 1 asserts
equal indices and appends only the genuinely new columns.  The Python
`assert` failures are the error results. -/
def extendTable (tableDf : Option DF) (df : DF) (axis : Nat) :
    Except String DF :=
  if axis ≠ 0 ∧ axis ≠ 1 then Except.error "assert axis in [0, 1]"
  else
    match tableDf with
    | none => Except.ok df
    | some old =>
      if axis = 0 then
        if old.index.any (fun i => df.index.contains i) then
          Except.error "assert len(table_df.index.intersection(df.index)) == 0"
        else
          let missing_df_str_columns :=
            (old.cols.filter (fun cd =>
              cd.2 = Dtype.obj ∧ !(df.cols.map (fun nd => nd.1)).contains cd.1)).map
              (fun cd => cd.1)
          let combined := concatRows old df
          Except.ok (missing_df_str_columns.foldl fillnaCol combined)
      else
        if !decide (old.index = df.index) then
          Except.error "assert table_df.index.equals(df.index)"
        else
          let newCols := df.cols.filter
            (fun cd => !(old.cols.map (fun od => od.1)).contains cd.1)
          Except.ok
            { index := old.index
              cols := old.cols ++ newCols
              cells := old.cells ++ df.cells.filter
                (fun e => (newCols.map (fun cd => cd.1)).contains e.1.2) }

/-! ## `choose_MAZ_for_TAZ` (tour_od.py:312-562)

Given a TAZ-level sample (duplicated chooser index, columns `dest_TAZ`,
`prob`, `pick_count`) and the MAZ size-term table (`zone_id`, `dest_TAZ`,
`size_term`), each TAZ draw is expanded `pick_count` times, each expanded
row's candidate MAZs are the size-term rows of its TAZ, candidate rows are
padded with zero weight to the global maximum candidate count, normalized
into per-row probabilities, and a MAZ is chosen by inverse-CDF sampling
(`np.argmax((cumsum - rand) > 0)`).  numpy floats are embedded as `ℚ`
(division by zero yields 0 in `ℚ`; every claim below has positive row
sums).  The `addtl_col_for_unique_key` column is `None` here, so the final
regrouping key is `(chooser, MAZ)`. -/
structure TazRow : Type where
  chooser : Nat
  taz : Nat
  prob : ℚ
  pickCount : Nat
  deriving DecidableEq, Repr

structure MazRow : Type where
  zone : Nat
  taz : Nat
  size : ℚ
  deriving DecidableEq, Repr

/-- The candidate MAZ rows of one TAZ: the rows `pd.merge(.., MAZ_size_terms,
how="left", on=DEST_TAZ)` attaches to an expanded draw of that TAZ, in
`MAZ_size_terms` order. -/
def candidates (mazSizes : List MazRow) (taz : Nat) : List MazRow :=
  mazSizes.filter (fun m => m.taz = taz)

/-- `np.cumsum` of one row. -/
def cumsum : List ℚ → List ℚ
  | [] => []
  | x :: xs => x :: (cumsum xs).map (fun y => x + y)

/-- Index of the first `true` in a boolean row, if any. -/
def firstTrueAux : List Bool → Option Nat
  | [] => none
  | b :: rest => if b then some 0 else (firstTrueAux rest).map (fun i => i + 1)

/-- `np.argmax` over a boolean row: index of the first `true`, or 0 when
there is none. -/
def firstTrue (bs : List Bool) : Nat :=
  (firstTrueAux bs).getD 0

/-- Pad one row's candidate size terms with zero weight to the common
width (`np.insert(..., inserts, 0.0).reshape(-1, max_maz_count)`). -/
def padRow (sizes : List ℚ) (width : Nat) : List ℚ :=
  sizes ++ List.replicate (width - sizes.length) 0

/-- Normalize one padded row by its row sum
(`np.divide(padded_maz_sizes, row_sums.reshape(-1, 1))`). -/
def rowProbs (padded : List ℚ) : List ℚ :=
  padded.map (fun x => x / padded.sum)

/-- Choose one alternative by inverse-CDF sampling:
`np.argmax((maz_probs.cumsum(axis=1) - rands) > 0.0, axis=1)`. -/
def choosePosition (probs : List ℚ) (rand : ℚ) : Nat :=
  firstTrue ((cumsum probs).map (fun cp => decide (0 < cp - rand)))

/-- The expanded TAZ draws: `taz_choices.reindex(taz_choices.index.repeat(
taz_sample.pick_count))` — each `(chooser, dest_TAZ, prob)` row repeated
`pick_count` times. -/
def expandTaz (sample : List TazRow) : List (Nat × Nat × ℚ) :=
  sample.flatMap (fun r => List.replicate r.pickCount (r.chooser, r.taz, r.prob))

/-- One fully annotated expanded row after the MAZ choice: the trailing
columns of `taz_choices` right before the final groupby (`dest_TAZ`,
`TAZ_prob`, `dest_MAZ`, `MAZ_prob`, `prob`), plus this row's real
candidate count (`maz_counts`) and chosen column position. -/
structure ChoiceRow : Type where
  chooser : Nat
  taz : Nat
  tazProb : ℚ
  count : Nat
  pos : Nat
  maz : Nat
  mazProb : ℚ
  prob : ℚ
  deriving DecidableEq, Repr

/-- `max_maz_count`: the widest candidate set over the expanded rows. -/
def maxMazCount (sample : List TazRow) (mazSizes : List MazRow) : Nat :=
  ((expandTaz sample).map
    (fun e => (candidates mazSizes e.2.1).length)).foldr max 0

/-- The per-row body of `choose_MAZ_for_TAZ` (tour_od.py:443-485): candidate
gathering, zero padding, normalization, inverse-CDF choice, and the joint
probability `prob = TAZ_prob * MAZ_prob`.  `rands` carries one uniform draw
per expanded row (`random_for_df(chooser_df, n=taz_sample_size)` reshaped to
one column). -/
def chooseMAZrows (sample : List TazRow) (mazSizes : List MazRow)
    (rands : List ℚ) : List ChoiceRow :=
  let width := maxMazCount sample mazSizes
  ((expandTaz sample).zip rands).map (fun er =>
    let cands := candidates mazSizes er.1.2.1
    let probs := rowProbs (padRow (cands.map (fun m => m.size)) width)
    let pos := choosePosition probs er.2
    { chooser := er.1.1
      taz := er.1.2.1
      tazProb := er.1.2.2
      count := cands.length
      pos := pos
      maz := (cands.map (fun m => m.zone)).getD pos 0
      mazProb := probs.getD pos 0
      prob := er.1.2.2 * probs.getD pos 0 })

/-- One row of the final regrouped table: index `chooser`, columns
`dest_MAZ`, `prob`, `pick_count`. -/
structure GroupRow : Type where
  chooser : Nat
  maz : Nat
  prob : ℚ
  pickCount : Nat
  deriving DecidableEq, Repr

/-- Group key match for the final groupby on `[chooser_id_col, dest_maz_id_col]`. -/
def keyMatch (c m : Nat) (r : ChoiceRow) : Bool :=
  decide (r.chooser = c ∧ r.maz = m)

/-- Find the output group row with a given `(chooser, MAZ)` key. -/
def findGroup : List GroupRow → Nat → Nat → Option GroupRow
  | [], _, _ => none
  | g :: l, c, m =>
    if g.chooser = c ∧ g.maz = m then some g else findGroup l c m

/-- One step of the collapsing groupby: a row whose `(chooser, MAZ)` key is
already present bumps that group's count (`pick_count=("prob", "count")`)
and leaves its probability alone (`prob=("prob", "first")`); a fresh key
opens a new group carrying this row's probability. -/
def groupStep (acc : List GroupRow) (r : ChoiceRow) : List GroupRow :=
  if (findGroup acc r.chooser r.maz).isSome then
    acc.map (fun g =>
      if g.chooser = r.chooser ∧ g.maz = r.maz then
        { g with pickCount := g.pickCount + 1 }
      else g)
  else
    acc ++ [{ chooser := r.chooser, maz := r.maz, prob := r.prob, pickCount := 1 }]

/-- The final `groupby([chooser_id_col, dest_maz_id_col]).agg(prob=("prob",
"first"), pick_count=("prob", "count"))` of tour_od.py:555-557, as the
row-at-a-time collapse it computes (pandas sorts the group keys for
output; row order is irrelevant to every claim and is not modelled). -/
def regroup (rows : List ChoiceRow) : List GroupRow :=
  rows.foldl groupStep []

/-- `choose_MAZ_for_TAZ` end to end: expand, choose, regroup. -/
def chooseMAZforTAZ (sample : List TazRow) (mazSizes : List MazRow)
    (rands : List ℚ) : List GroupRow :=
  regroup (chooseMAZrows sample mazSizes rands)

/-! ## `run_tour_od` (tour_od.py:1040-1183)

Only the segment loop is embedded; the heavy per-segment work
(`run_od_sample` → `run_od_logsums` → `run_od_simulate`) is the
collaborator `simulate`.  The chooser subset of a segment is the tours
whose `CHOOSER_SEGMENT_COLUMN_NAME` value equals the segment name, merged
(inner join on `person_id`) with the persons table; when it is empty the
segment is skipped (`continue`).  When no segment contributed any choices,
`choices_df` is never assigned and the final
`return choices_df, save_sample_df` raises an unbound-local error. -/
structure Tour : Type where
  tourId : Nat
  personId : Nat
  seg : String
  deriving DecidableEq, Repr

/-- The chooser subset of one segment:
`tours[tours[chooser_segment_column] == segment_name]` followed by
`pd.merge(choosers, persons..., left_on="person_id", right_index=True)`. -/
def segChoosers (tours : List Tour) (persons : List Nat) (seg : String) :
    List Tour :=
  (tours.filter (fun t => t.seg = seg)).filter
    (fun t => persons.contains t.personId)

/-- The segment loop and final concatenation of `run_tour_od`. -/
def runTourOd (simulate : String → List Tour → List Nat)
    (segments : List String) (tours : List Tour) (persons : List Nat) :
    Except String (List Nat) :=
  let choicesList := segments.foldl
    (fun acc seg =>
      let choosers := segChoosers tours persons seg
      if choosers.isEmpty then acc else acc ++ [simulate seg choosers])
    []
  if choicesList.length > 0 then Except.ok choicesList.flatten
  else
    Except.error
      "UnboundLocalError: local variable referenced before assignment"

/-! ## Concrete fixtures for witnesses and counterexamples -/
/-- A predicate registry with a two-step chain `a → b → c`. -/
def predsChain : String → List String :=
  fun k => if k = "a" then ["b"] else if k = "b" then ["c"] else []

/-- A context holding `a` and `c` but not the intermediate key `b`. -/
def ctxGap : Ctx := [("a", Value.vnat 0), ("c", Value.vnat 7)]

/-- A context holding the whole chain `a`, `b`, `c`. -/
def ctxFull : Ctx :=
  [("a", Value.vnat 0), ("b", Value.vnat 1), ("c", Value.vnat 2)]

/-- An empty predicate registry. -/
def noPreds : String → List String := fun _ => []

/-- A state whose context, loaders and filesystem are all empty. -/
def cstEmpty : CtxState :=
  { ctx := []
    preds := noPreds
    status := []
    tempNames := []
    fsAttr := fun _ => none
    loadTables := fun _ => none
    loadObjects := fun _ => none }

/-- A state with a configured filesystem: `getattr(self.filesystem,
"working_dir", None)` finds the `FileSystem` model's `working_dir`
attribute (every attribute name of the filesystem object behaves this
way). -/
def cstFs : CtxState :=
  { cstEmpty with
    fsAttr := fun k => if k = "working_dir" then some (Value.vstr "/configs") else none }

/-- A state with one registered table loader. -/
def cstLoader : CtxState :=
  { cstEmpty with
    loadTables := fun k =>
      if k = "households" then some (fun _ => Value.vnat 42) else none }

/-- A pipeline state with one prior checkpoint `c0`. -/
def pipPrior : PipState :=
  { ctx := [("mytab", 5)]
    status := [("mytab", false)]
    lastCheckpoint := [("mytab", "c0")]
    checkpoints := [⟨"c0", [("mytab", "c0")]⟩]
    store := [(("mytab", "c0"), 5)] }

/-- The empty pipeline state. -/
def pipEmpty : PipState :=
  { ctx := [], status := [], lastCheckpoint := [], checkpoints := [], store := [] }

/-- Tours for the `run_tour_od` fixtures. -/
def toursFix : List Tour := [⟨1, 5, "work"⟩]

/-- A trivial per-segment simulator for the `run_tour_od` fixtures. -/
def simFix : String → List Tour → List Nat :=
  fun _ ts => ts.map (fun t => t.tourId)

/-- TAZ sample fixture: one chooser, one TAZ draw with `pick_count = 1`. -/
def sampleFix : List TazRow := [⟨1, 10, 1/2, 1⟩]

/-- MAZ size-term fixture: a single candidate MAZ in TAZ 10. -/
def mazSizesFix : List MazRow := [⟨100, 10, 1⟩]

/-- One uniform draw per expanded row. -/
def randsFix : List ℚ := [0]

/-- TAZ sample fixture with `pick_count = 2` and two candidate MAZs. -/
def sampleFix2 : List TazRow := [⟨1, 10, 1/2, 2⟩]

def mazSizesFix2 : List MazRow := [⟨100, 10, 3⟩, ⟨101, 10, 1⟩]

def randsFix2 : List ℚ := [1/4, 9/10]

/-- Existing table fixture for `extend_table`: two rows, an object column
and a numeric column. -/
def dfOld : DF :=
  { index := [1, 2]
    cols := [("name", Dtype.obj), ("size", Dtype.numeric)]
    cells := [((1, "name"), Cell.cstr "ann"), ((1, "size"), Cell.cnum 3),
              ((2, "name"), Cell.cstr "bob"), ((2, "size"), Cell.cnum 4)] }

/-- New rows for `extend_table`, lacking the object column `name`. -/
def dfNew : DF :=
  { index := [3]
    cols := [("size", Dtype.numeric)]
    cells := [((3, "size"), Cell.cnum 9)] }

/-- New rows whose index overlaps `dfOld`. -/
def dfOverlap : DF :=
  { index := [2]
    cols := [("size", Dtype.numeric)]
    cells := [((2, "size"), Cell.cnum 9)] }

instance (needle msg : String) : Decidable (NamesIn needle msg) := by
  unfold NamesIn
  infer_instance

/-- The expanded rows carrying a given `(chooser, MAZ)` group key. -/
def matchRows (rows : List ChoiceRow) (c m : Nat) : List ChoiceRow :=
  rows.filter (keyMatch c m)

/-- Every row of a grouped table is the unique row found under its own
key. -/
def UniqKeys (l : List GroupRow) : Prop :=
  ∀ g ∈ l, findGroup l g.chooser g.maz = some g

theorem alookup_aerase {α β : Type} [DecidableEq α] (l : List (α × β)) (k x : α) :
    alookup (aerase l k) x = if x = k then none else alookup l x := by
  induction l with
  | nil => simp [aerase, alookup]
  | cons e rest ih =>
    by_cases hek : e.1 = k
    · by_cases hxk : x = k
      · subst hxk
        simp only [aerase, hek, if_pos, ih, if_pos rfl]
      · have hkx : k ≠ x := fun h => hxk h.symm
        simp only [aerase, hek, if_pos, ih, if_neg hxk, alookup, if_neg hkx]
    · by_cases hex : e.1 = x
      · have hxk : x ≠ k := fun h => hek (hex.trans h)
        simp only [aerase, hek, if_neg, not_false_iff, alookup, hex, if_pos,
          if_neg hxk]
      · simp only [aerase, hek, if_neg, not_false_iff, alookup, hex, if_neg, ih]

theorem alookup_aset {α β : Type} [DecidableEq α] (l : List (α × β)) (k x : α) (v : β) :
    alookup (aset l k v) x = if x = k then some v else alookup l x := by
  by_cases h : x = k
  · subst h
    simp [aset, alookup]
  · have hkx : k ≠ x := fun hh => h hh.symm
    simp [aset, alookup, hkx, alookup_aerase, h]

theorem length_aerase_le {α β : Type} [DecidableEq α] (l : List (α × β)) (k : α) :
    (aerase l k).length ≤ l.length := by
  induction l with
  | nil => simp [aerase]
  | cons e rest ih =>
    by_cases hek : e.1 = k
    · simp only [aerase, hek, if_pos, List.length_cons]
      omega
    · simp only [aerase, hek, if_neg, not_false_iff, List.length_cons]
      omega

theorem length_aerase_lt {α β : Type} [DecidableEq α] (l : List (α × β)) (k : α)
    (h : amem l k) : (aerase l k).length < l.length := by
  induction l with
  | nil => simp [amem, alookup] at h
  | cons e rest ih =>
    by_cases hek : e.1 = k
    · simp only [aerase, hek, if_pos, List.length_cons]
      have := length_aerase_le rest k
      omega
    · have hmem : amem rest k := by
        simpa [amem, alookup, hek] using h
      have := ih hmem
      simp only [aerase, hek, if_neg, not_false_iff, List.length_cons]
      omega

theorem PredReachIn.target_mem {preds : String → List String} {c : Ctx}
    {k d : String} (h : PredReachIn preds c k d) : amem c d := by
  cases h with
  | head _ hm => exact hm
  | tail _ _ hm => exact hm

theorem PredReachIn.mono {preds : String → List String} {c c' : Ctx}
    (hsub : ∀ x, amem c x → amem c' x) {k d : String}
    (h : PredReachIn preds c k d) : PredReachIn preds c' k d := by
  induction h with
  | head h hm => exact .head h (hsub _ hm)
  | tail _ h2 hm ih => exact .tail ih h2 (hsub _ hm)

theorem PredReachIn.toPredReach {preds : String → List String} {c : Ctx}
    {k d : String} (h : PredReachIn preds c k d) : PredReach preds k d := by
  induction h with
  | head h _ => exact .head h
  | tail _ h2 _ ih => exact .tail ih h2

theorem predReach_prepend {preds : String → List String} {k y d : String}
    (hy : y ∈ preds k) (h : PredReach preds y d) : PredReach preds k d := by
  induction h with
  | head h => exact .tail (.head hy) h
  | tail _ h2 ih => exact .tail ih h2

theorem predReachIn_prepend {preds : String → List String} {c : Ctx}
    {k y d : String} (hy : y ∈ preds k) (hmy : amem c y)
    (h : PredReachIn preds c y d) : PredReachIn preds c k d := by
  induction h with
  | head h hm => exact .tail (.head hy hmy) h hm
  | tail _ h2 hm ih => exact .tail ih h2 hm

theorem dropFuel_succ (preds : String → List String) (n : Nat) (k : String)
    (c : Ctx) : dropFuel preds (n + 1) k c = dropCascade preds n (preds k) (aerase c k) :=
  rfl

theorem dropCascade_nil (preds : String → List String) (n : Nat) (c : Ctx) :
    dropCascade preds n [] c = c := rfl

theorem dropCascade_cons (preds : String → List String) (n : Nat) (k : String)
    (ks : List String) (c : Ctx) :
    dropCascade preds n (k :: ks) c =
      dropCascade preds n ks (if amem c k then dropFuel preds n k c else c) := rfl

theorem dropCascade_zero (preds : String → List String) (ks : List String)
    (c : Ctx) : dropCascade preds 0 ks c = c := by
  induction ks generalizing c with
  | nil => rfl
  | cons k ks ih =>
    rw [dropCascade_cons]
    have hstep : (if amem c k then dropFuel preds 0 k c else c) = c := by
      split <;> rfl
    rw [hstep, ih]

theorem amem_of_lookup_eq {c r : Ctx} {x : String}
    (h : alookup r x = alookup c x) (hm : amem r x) : amem c x := by
  unfold amem at *
  rw [h] at hm
  exact hm

theorem amem_aerase_iff (c : Ctx) (k x : String) :
    amem (aerase c k) x ↔ x ≠ k ∧ amem c x := by
  unfold amem
  rw [alookup_aerase]
  by_cases h : x = k
  · simp [h]
  · simp [h]

theorem dropCascade_props (preds : String → List String) :
    ∀ (n : Nat) (ks : List String) (c : Ctx), c.length ≤ n →
      CascadeProps preds ks c (dropCascade preds n ks c) := by
  intro n
  induction n with
  | zero =>
    intro ks c hc
    have hcnil : c = [] := List.eq_nil_of_length_eq_zero (Nat.le_zero.mp hc)
    subst hcnil
    rw [dropCascade_zero]
    refine ⟨le_refl _, fun x _ => rfl, ?_, ?_, ?_⟩
    · intro x hx
      simp [amem, alookup] at hx
    · intro x hx
      simp [amem, alookup] at hx
    · intro k _ hk
      simp [amem, alookup] at hk
  | succ n ih =>
    intro ks
    induction ks with
    | nil =>
      intro c _
      rw [dropCascade_nil]
      refine ⟨le_refl _, fun x _ => rfl, ?_, ?_, ?_⟩
      · intro x hx hnx; exact absurd hx hnx
      · intro x hx hnx; exact absurd hx hnx
      · intro k hk; exact absurd hk (List.not_mem_nil k)
    | cons k ks' ihks =>
      intro c hc
      rw [dropCascade_cons]
      by_cases hmemk : amem c k
      · -- the head key is present: it is dropped, with its whole cascade
        rw [if_pos hmemk]
        have herase_lt : (aerase c k).length < c.length := length_aerase_lt c k hmemk
        have herase_le_n : (aerase c k).length ≤ n := by omega
        have hD := ih (preds k) (aerase c k) herase_le_n
        rw [dropFuel_succ]
        set c1 := dropCascade preds n (preds k) (aerase c k) with hc1
        obtain ⟨d0, d1, d2, d3, d4⟩ := hD
        have hc1_le : c1.length ≤ n + 1 := by
          have := length_aerase_le c k
          omega
        have hE := ihks c1 hc1_le
        set r := dropCascade preds (n + 1) ks' c1 with hr
        obtain ⟨e0, e1, e2, e3, e4⟩ := hE
        -- membership transfer facts
        have sub1 : ∀ x, amem c1 x → amem (aerase c k) x := by
          intro x hx
          exact amem_of_lookup_eq (d1 x hx) hx
        have sub1c : ∀ x, amem c1 x → amem c x := by
          intro x hx
          exact ((amem_aerase_iff c k x).mp (sub1 x hx)).2
        have subR : ∀ x, amem r x → amem c1 x := by
          intro x hx
          exact amem_of_lookup_eq (e1 x hx) hx
        refine ⟨?_, ?_, ?_, ?_, ?_⟩
        · -- length bound
          have := length_aerase_le c k
          omega
        · -- surviving keys keep values
          intro x hx
          have hx1 : amem c1 x := subR x hx
          have hxe : amem (aerase c k) x := sub1 x hx1
          have hxk : x ≠ k := ((amem_aerase_iff c k x).mp hxe).1
          calc alookup r x = alookup c1 x := e1 x hx
            _ = alookup (aerase c k) x := d1 x hx1
            _ = alookup c x := by rw [alookup_aerase, if_neg hxk]
        · -- soundness: every removed key traces back to a listed key
          intro x hx hnx
          by_cases hx1 : amem c1 x
          · obtain ⟨y, hy, hcase⟩ := e2 x hx1 hnx
            refine ⟨y, List.mem_cons_of_mem _ hy, ?_⟩
            rcases hcase with h | ⟨hmy, hry⟩
            · exact Or.inl h
            · exact Or.inr ⟨sub1c y hmy, hry.mono sub1c⟩
          · refine ⟨k, List.mem_cons_self k ks', ?_⟩
            by_cases hxk : x = k
            · exact Or.inl hxk.symm
            · have hxe : amem (aerase c k) x := (amem_aerase_iff c k x).mpr ⟨hxk, hx⟩
              obtain ⟨y, hy, hcase⟩ := d2 x hxe hx1
              have hreach : PredReachIn preds c k x := by
                rcases hcase with h | ⟨hmy, hry⟩
                · exact .head (h ▸ hy) hx
                · have hmyc : amem c y := ((amem_aerase_iff c k y).mp hmy).2
                  have : PredReachIn preds c y x :=
                    hry.mono (fun z hz => ((amem_aerase_iff c k z).mp hz).2)
                  exact predReachIn_prepend hy hmyc this
              exact Or.inr ⟨hmemk, hreach⟩
        · -- closure: removed keys have all their dependents removed
          intro x hx hnx y hy
          by_cases hx1 : amem c1 x
          · exact e3 x hx1 hnx y hy
          · by_cases hxk : x = k
            · subst hxk
              intro hry
              exact d4 y hy (subR y hry)
            · have hxe : amem (aerase c k) x := (amem_aerase_iff c k x).mpr ⟨hxk, hx⟩
              intro hry
              exact d3 x hxe hx1 y hy (subR y hry)
        · -- every listed key is removed
          intro k' hk'
          rcases List.mem_cons.mp hk' with h | h
          · subst h
            intro hrk
            have : amem (aerase c k') k' := sub1 k' (subR k' hrk)
            exact ((amem_aerase_iff c k' k').mp this).1 rfl
          · exact e4 k' h
      · -- the head key is absent: the loop skips it
        rw [if_neg hmemk]
        have hE := ihks c hc
        obtain ⟨e0, e1, e2, e3, e4⟩ := hE
        refine ⟨e0, e1, ?_, e3, ?_⟩
        · intro x hx hnx
          obtain ⟨y, hy, hcase⟩ := e2 x hx hnx
          exact ⟨y, List.mem_cons_of_mem _ hy, hcase⟩
        · intro k' hk'
          rcases List.mem_cons.mp hk' with h | h
          · subst h
            intro hrk
            exact hmemk (amem_of_lookup_eq (e1 k' hrk) hrk)
          · exact e4 k' h

/-! ### Characterizing `State.set`'s invalidation cascade -/
theorem setState_subset (preds : String → List String) (k : String) (v : Value)
    (c : Ctx) : ∀ d, amem (setState preds k v c) d → amem (aset c k v) d := by
  intro d hd
  have h := dropCascade_props preds (aset c k v).length (preds k) (aset c k v)
    (le_refl _)
  exact amem_of_lookup_eq (h.2.1 d hd) hd

theorem setState_frame (preds : String → List String) (k : String) (v : Value)
    (c : Ctx) :
    ∀ d, amem (setState preds k v c) d →
      alookup (setState preds k v c) d = alookup (aset c k v) d := by
  intro d hd
  have h := dropCascade_props preds (aset c k v).length (preds k) (aset c k v)
    (le_refl _)
  exact h.2.1 d hd

theorem setState_removes_reachable (preds : String → List String) (k : String)
    (v : Value) (c : Ctx) :
    ∀ d, PredReachIn preds (aset c k v) k d → ¬ amem (setState preds k v c) d := by
  have h := dropCascade_props preds (aset c k v).length (preds k) (aset c k v)
    (le_refl _)
  intro d hd
  induction hd with
  | head hstep _ => exact h.2.2.2.2 _ hstep
  | tail hreach hstep hm ihm =>
    exact h.2.2.2.1 _ hreach.target_mem ihm _ hstep

theorem setState_removed_only_reachable (preds : String → List String)
    (k : String) (v : Value) (c : Ctx) :
    ∀ d, amem (aset c k v) d → ¬ amem (setState preds k v c) d →
      PredReachIn preds (aset c k v) k d := by
  have h := dropCascade_props preds (aset c k v).length (preds k) (aset c k v)
    (le_refl _)
  intro d hd hnd
  obtain ⟨y, hy, hcase⟩ := h.2.2.1 d hd hnd
  rcases hcase with hyd | ⟨hmy, hry⟩
  · exact .head (hyd ▸ hy) hd
  · exact predReachIn_prepend hy hmy hry

theorem setState_removed_iff (preds : String → List String) (k : String)
    (v : Value) (c : Ctx) :
    ∀ d, amem (aset c k v) d →
      (¬ amem (setState preds k v c) d ↔ PredReachIn preds (aset c k v) k d) :=
  fun d hd =>
    ⟨setState_removed_only_reachable preds k v c d hd,
     fun hr => setState_removes_reachable preds k v c d hr⟩

theorem setState_keeps_value (preds : String → List String) (k : String)
    (v : Value) (c : Ctx) (hnc : ¬ PredReachIn preds (aset c k v) k k) :
    alookup (setState preds k v c) k = some v := by
  have hk : amem (aset c k v) k := by
    unfold amem
    rw [alookup_aset, if_pos rfl]
    rfl
  by_cases hr : amem (setState preds k v c) k
  · rw [setState_frame preds k v c k hr, alookup_aset, if_pos rfl]
  · exact absurd (setState_removed_only_reachable preds k v c k hk hr) hnc

theorem setState_lookup_self (preds : String → List String) (k : String)
    (v : Value) (c : Ctx) :
    alookup (setState preds k v c) k = some v ∨
      alookup (setState preds k v c) k = none := by
  by_cases hr : amem (setState preds k v c) k
  · left
    rw [setState_frame preds k v c k hr, alookup_aset, if_pos rfl]
  · right
    unfold amem at hr
    exact Option.not_isSome_iff_eq_none.mp hr

/-! # Theorems -/
/-- No key is reachable through an empty predicate registry. -/
theorem noPreds_not_reachIn (c : Ctx) (k d : String) :
    ¬ PredReachIn noPreds c k d := by
  intro h
  cases h with
  | head h _ => exact absurd h (List.not_mem_nil _)
  | tail _ h2 _ => exact absurd h2 (List.not_mem_nil _)

/-- Nothing in `predsChain` points at `"a"`. -/
theorem predsChain_not_reach_a (c : Ctx) (k : String) :
    ¬ PredReachIn predsChain c k "a" := by
  have hno : ∀ m, "a" ∉ predsChain m := by
    intro m
    unfold predsChain
    split
    · decide
    · split
      · decide
      · decide
  intro h
  cases h with
  | head h _ => exact hno _ h
  | tail _ h2 _ => exact hno _ h2

/-- **C1** (amended).  `State.set(K, v)` writes `v` under `K` and then
removes from the context exactly those keys reachable from `K` through a
chain of predicate edges every key of which is present in the context at
the time of the write — the cascade does not pass through keys absent from
the context — and no key outside the transitive dependent set of `K` is
removed; `K` itself retains `v` (and every surviving key retains its
value) provided `K` is not itself reachable that way. -/
theorem set_invalidation (preds : String → List String) (c : Ctx) (k : String)
    (v : Value) :
    (∀ d, amem (setState preds k v c) d → amem (aset c k v) d) ∧
    (∀ d, amem (aset c k v) d →
      (¬ amem (setState preds k v c) d ↔ PredReachIn preds (aset c k v) k d)) ∧
    (∀ d, amem (aset c k v) d → ¬ amem (setState preds k v c) d →
      PredReach preds k d) ∧
    (¬ PredReachIn preds (aset c k v) k k →
      alookup (setState preds k v c) k = some v) ∧
    (∀ d, amem (setState preds k v c) d →
      alookup (setState preds k v c) d = alookup (aset c k v) d) :=
  ⟨setState_subset preds k v c,
   setState_removed_iff preds k v c,
   fun d hd hnd =>
     (setState_removed_only_reachable preds k v c d hd hnd).toPredReach,
   setState_keeps_value preds k v c,
   setState_frame preds k v c⟩

/-- Witness for **C1** on the fully present chain `a → b → c`:
`set("a", 9)` drops `b` and keeps `a ↦ 9`. -/
theorem set_invalidation_witness :
    ¬ amem (setState predsChain "a" (Value.vnat 9) ctxFull) "b" ∧
    alookup (setState predsChain "a" (Value.vnat 9) ctxFull) "a" =
      some (Value.vnat 9) := by
  have h := set_invalidation predsChain ctxFull "a" (Value.vnat 9)
  constructor
  · exact (h.2.1 "b" (by decide)).mpr
      (PredReachIn.head (by decide) (by decide))
  · exact h.2.2.2.1 (predsChain_not_reach_a _ "a")

/-- Counterexample to **C1** as stated: with predicates `a → b → c` and a
context holding `a` and `c` but not `b`, the key `c` is transitively
registered as predicated on `a`, yet `set("a", 1)` leaves `c` in the
context, because the cascade stops at the absent intermediate key `b`. -/
theorem set_invalidation_cex :
    PredReach predsChain "a" "c" ∧ amem ctxGap "c" ∧
      amem (setState predsChain "a" (Value.vnat 1) ctxGap) "c" := by
  refine ⟨PredReach.tail (PredReach.head (show "b" ∈ predsChain "a" by decide))
    (show "c" ∈ predsChain "b" by decide), by decide, by decide⟩

/-- **C8** (amended).  `State.get` without a default, on a key absent from
the context, with no registered table/object loader, *and which does not
resolve as an attribute of the state's filesystem object*, raises the
distinct key-naming state-access error — it never returns a null value. -/
theorem get_missing_key_error (st : CtxState) (key : String)
    (h1 : alookup st.ctx key = none)
    (h2 : st.fsAttr key = none)
    (h3 : st.loadTables key = none)
    (h4 : st.loadObjects key = none) :
    getValue st key none = Except.error (GetErr.missingKey key) := by
  simp [getValue, h1, h2, h3, h4]

/-- Witness for **C8**. -/
theorem get_missing_key_error_witness :
    getValue cstEmpty "nothing_here" none =
      Except.error (GetErr.missingKey "nothing_here") :=
  get_missing_key_error cstEmpty "nothing_here" rfl rfl rfl rfl

/-- Counterexample to **C8** as stated: on a state with a configured
filesystem, the key `"working_dir"` is absent from the context and has no
registered loader, yet `State.get` returns the filesystem attribute found
by `getattr(self.filesystem, key, None)` (state.py:670) instead of
raising. -/
theorem get_missing_key_error_cex :
    alookup cstFs.ctx "working_dir" = none ∧
    cstFs.loadTables "working_dir" = none ∧
    cstFs.loadObjects "working_dir" = none ∧
    getValue cstFs "working_dir" none = Except.ok (Value.vstr "/configs") :=
  ⟨rfl, rfl, rfl, rfl⟩

/-- **C9**.  `State.get` on a key absent from the context (and not a
filesystem attribute) with a registered loader invokes the loader on the
context and returns its value, leaving the state unchanged — the key is
still absent afterwards — whereas `State.add_table` caches through
`State.set`: afterwards the key holds the content (provided the key is not
predicated on itself through present keys). -/
theorem get_loader_no_cache (st : CtxState) (key : String) (f : Ctx → Value)
    (content : Value)
    (h1 : alookup st.ctx key = none)
    (h2 : st.fsAttr key = none)
    (h3 : st.loadTables key = some f)
    (h4 : f st.ctx ≠ Value.vnone) :
    getCall st key none = (Except.ok (f st.ctx), st) ∧
    alookup (getCall st key none).2.ctx key = none ∧
    (¬ PredReachIn st.preds (aset st.ctx key content) key key →
      alookup (addTableCtx st key content none).ctx key = some content) := by
  refine ⟨?_, h1, ?_⟩
  · unfold getCall
    congr 1
    simp [getValue, h1, h2, h3, h4]
  · intro hnc
    have hctx : (addTableCtx st key content none).ctx =
        setState st.preds key content st.ctx := by
      unfold addTableCtx setCall
      simp only [Option.getD_none]
      split <;> rfl
    rw [hctx]
    exact setState_keeps_value st.preds key content st.ctx hnc

/-- Witness for **C9**. -/
theorem get_loader_no_cache_witness :
    getCall cstLoader "households" none = (Except.ok (Value.vnat 42), cstLoader) ∧
    alookup (getCall cstLoader "households" none).2.ctx "households" = none ∧
    alookup (addTableCtx cstLoader "households" (Value.vnat 42) none).ctx
      "households" = some (Value.vnat 42) := by
  have h := get_loader_no_cache cstLoader "households" (fun _ => Value.vnat 42)
    (Value.vnat 42) rfl rfl rfl (by decide)
  exact ⟨h.1, h.2.1, h.2.2 (noPreds_not_reachIn _ _ _)⟩

/-- **C10**.  A key stored as `None` is indistinguishable from an absent
key through `State.get`: after `set(K, None)` (no loader and no filesystem
attribute for `K`), `get(K, default)` returns the default and `get(K)`
raises the missing-key error — the stored `None` is never returned. -/
theorem set_none_indistinguishable (st : CtxState) (key : String) (d : Value)
    (h2 : st.fsAttr key = none)
    (h3 : st.loadTables key = none)
    (h4 : st.loadObjects key = none) :
    getValue (setCall st key Value.vnone) key (some d) = Except.ok d ∧
    getValue (setCall st key Value.vnone) key none =
      Except.error (GetErr.missingKey key) := by
  have hl := setState_lookup_self st.preds key Value.vnone st.ctx
  have hctx : (setCall st key Value.vnone).ctx =
      setState st.preds key Value.vnone st.ctx := rfl
  rcases hl with h | h <;>
    constructor <;>
      simp [getValue, setCall, h, h2, h3, h4]

/-- Witness for **C10**. -/
theorem set_none_indistinguishable_witness :
    getValue (setCall cstEmpty "zed" Value.vnone) "zed" (some (Value.vnat 3)) =
      Except.ok (Value.vnat 3) ∧
    getValue (setCall cstEmpty "zed" Value.vnone) "zed" none =
      Except.error (GetErr.missingKey "zed") :=
  set_none_indistinguishable cstEmpty "zed" (Value.vnat 3) rfl rfl rfl

/-- The segment loop accumulates, in segment order, one choice table per
segment with a nonempty chooser subset. -/
theorem runTourOd_fold (simulate : String → List Tour → List Nat)
    (tours : List Tour) (persons : List Nat) :
    ∀ (segments : List String) (acc : List (List Nat)),
      segments.foldl
        (fun acc seg =>
          let choosers := segChoosers tours persons seg
          if choosers.isEmpty then acc else acc ++ [simulate seg choosers])
        acc =
      acc ++
        (segments.filter (fun s => !(segChoosers tours persons s).isEmpty)).map
          (fun s => simulate s (segChoosers tours persons s)) := by
  intro segments
  induction segments with
  | nil => intro acc; simp
  | cons s segs ih =>
    intro acc
    by_cases hs : (segChoosers tours persons s).isEmpty
    · simp only [List.foldl_cons, hs, if_pos, List.filter_cons, Bool.not_eq_true',
        hs, Bool.not_true]
      rw [ih acc]
      simp [hs]
    · have hs' : (segChoosers tours persons s).isEmpty = false :=
        Bool.not_eq_true _ ▸ (by simpa using hs)
      simp only [List.foldl_cons, hs', if_neg, Bool.false_eq_true,
        not_false_eq_true, List.filter_cons]
      rw [ih (acc ++ [simulate s (segChoosers tours persons s)])]
      simp [hs']

/-- **C7** (amended).  `run_tour_od` processes segments sequentially in the
configured order, skips every segment whose (post person-merge) chooser
subset is empty, and concatenates the per-segment choice tables in segment
order; it completes without error provided at least one segment has
choosers — when every segment's chooser subset is empty, `choices_df` is
never assigned and the final `return` raises an unbound-local error. -/
theorem run_tour_od_segments (simulate : String → List Tour → List Nat)
    (segments : List String) (tours : List Tour) (persons : List Nat) :
    ((∃ s ∈ segments, segChoosers tours persons s ≠ []) →
      runTourOd simulate segments tours persons =
        Except.ok
          (((segments.filter (fun s => !(segChoosers tours persons s).isEmpty)).map
            (fun s => simulate s (segChoosers tours persons s))).flatten)) ∧
    ((∀ s ∈ segments, segChoosers tours persons s = []) →
      runTourOd simulate segments tours persons =
        Except.error
          "UnboundLocalError: local variable referenced before assignment") := by
  constructor
  · rintro ⟨s, hs, hne⟩
    unfold runTourOd
    rw [runTourOd_fold simulate tours persons segments []]
    rw [List.nil_append]
    have hfil : s ∈ segments.filter
        (fun s => !(segChoosers tours persons s).isEmpty) := by
      rw [List.mem_filter]
      exact ⟨hs, by simpa [List.isEmpty_iff] using hne⟩
    have hlen : 0 < ((segments.filter
        (fun s => !(segChoosers tours persons s).isEmpty)).map
          (fun s => simulate s (segChoosers tours persons s))).length := by
      rw [List.length_map, List.length_pos]
      exact List.ne_nil_of_mem hfil
    rw [if_pos hlen]
  · intro hall
    unfold runTourOd
    rw [runTourOd_fold simulate tours persons segments []]
    rw [List.nil_append]
    have hfil : segments.filter
        (fun s => !(segChoosers tours persons s).isEmpty) = [] := by
      rw [List.filter_eq_nil_iff]
      intro s hs
      simp [List.isEmpty_iff, hall s hs]
    rw [hfil]
    rfl

/-- Witness for **C7**: with segments `["work", "school"]` where only
`"work"` has choosers after the person merge, the result is the `"work"`
choices alone. -/
theorem run_tour_od_segments_witness :
    runTourOd simFix ["work", "school"] toursFix [5] = Except.ok [1] := by
  have h := (run_tour_od_segments simFix ["work", "school"] toursFix [5]).1
    ⟨"work", by decide, by decide⟩
  rw [h]
  rfl

/-- Counterexample to **C7** as stated: when every segment's chooser
subset is empty (here the merge with an empty persons table empties the
single segment), `run_tour_od` does not complete without error — the
source raises an unbound-local error on `choices_df`. -/
theorem run_tour_od_segments_cex :
    segChoosers toursFix [] "work" = [] ∧
    runTourOd simFix ["work"] toursFix [] =
      Except.error
        "UnboundLocalError: local variable referenced before assignment" :=
  ⟨rfl, rfl⟩

/-- A string occurs verbatim in the concatenation around it. -/
theorem namesIn_append_mid (p t s : String) : NamesIn t (p ++ t ++ s) := by
  refine ⟨p.data, s.data, ?_⟩
  simp [String.data_append]

/-- **C6** (amended).  With a checkpoint name requested, `get_table` raises
a fatal runtime error when the checkpoint name is not in the checkpoint
log — that message names the checkpoint (only) — and when the requested
table has no stored version at or before the found checkpoint — that
message names both the table and the checkpoint.  (The guard hypothesis
rules out the separate non-checkpointed-table branch.) -/
theorem get_table_checkpoint_errors (st : PipState) (t cn : String)
    (hguard : ((alookup st.lastCheckpoint t).isNone && isTable st t) = false) :
    (st.checkpoints.find? (fun cp => cp.name = cn) = none →
      getTable st t (some cn) =
        Except.error ("checkpoint '" ++ cn ++ "' not in checkpoints.") ∧
      NamesIn cn ("checkpoint '" ++ cn ++ "' not in checkpoints.")) ∧
    (∀ cp, st.checkpoints.find? (fun cp => cp.name = cn) = some cp →
      (alookup cp.tables t).getD "" = "" →
      getTable st t (some cn) =
        Except.error ("table '" ++ t ++ "' not in checkpoint '" ++ cn ++ "'.") ∧
      NamesIn t ("table '" ++ t ++ "' not in checkpoint '" ++ cn ++ "'.") ∧
      NamesIn cn ("table '" ++ t ++ "' not in checkpoint '" ++ cn ++ "'.")) := by
  constructor
  · intro hfind
    constructor
    · simp [getTable, hguard, hfind]
    · exact namesIn_append_mid "checkpoint '" cn "' not in checkpoints."
  · intro cp hfind hmiss
    refine ⟨?_, ?_, ?_⟩
    · simp [getTable, hguard, hfind, hmiss]
    · have heq : "table '" ++ t ++ "' not in checkpoint '" ++ cn ++ "'." =
          "table '" ++ t ++ ("' not in checkpoint '" ++ cn ++ "'.") := by
        simp [String.append_assoc]
      rw [heq]
      exact namesIn_append_mid "table '" t ("' not in checkpoint '" ++ cn ++ "'.")
    · have heq : "table '" ++ t ++ "' not in checkpoint '" ++ cn ++ "'." =
          ("table '" ++ t ++ "' not in checkpoint '") ++ cn ++ "'." := by
        simp [String.append_assoc]
      rw [heq]
      exact namesIn_append_mid ("table '" ++ t ++ "' not in checkpoint '") cn "'."

/-- Witness for **C6**: on a concrete state, both error branches fire with
their respective messages. -/
theorem get_table_checkpoint_errors_witness :
    getTable pipPrior "mytab" (some "zzz") =
      Except.error ("checkpoint '" ++ "zzz" ++ "' not in checkpoints.") ∧
    getTable pipPrior "othertab" (some "c0") =
      Except.error ("table '" ++ "othertab" ++ "' not in checkpoint '" ++ "c0" ++ "'.") := by
  constructor
  · exact ((get_table_checkpoint_errors pipPrior "mytab" "zzz" rfl).1 rfl).1
  · exact (((get_table_checkpoint_errors pipPrior "othertab" "c0" rfl).2)
      ⟨"c0", [("mytab", "c0")]⟩ rfl rfl).1

/-- Counterexample to **C6** as stated: requesting a nonexistent checkpoint
raises an error whose message names only the checkpoint — the table name
does not occur in it. -/
theorem get_table_checkpoint_errors_cex :
    getTable pipPrior "mytab" (some "zzz") =
      Except.error "checkpoint 'zzz' not in checkpoints." ∧
    ¬ NamesIn "mytab" "checkpoint 'zzz' not in checkpoints." :=
  ⟨rfl, by decide⟩

theorem aerase_subset {α β : Type} [DecidableEq α] (l : List (α × β)) (k : α) :
    ∀ e, e ∈ aerase l k → e ∈ l := by
  induction l with
  | nil => intro e he; simp [aerase] at he
  | cons x rest ih =>
    intro e he
    by_cases hx : x.1 = k
    · simp only [aerase, hx, if_pos] at he
      exact List.mem_cons_of_mem _ (ih e he)
    · simp only [aerase, hx, if_neg, not_false_iff] at he
      rcases List.mem_cons.mp he with h | h
      · exact h ▸ List.mem_cons_self _ _
      · exact List.mem_cons_of_mem _ (ih e h)

/-- Marking one table edited in an otherwise clean status dict leaves it
the only edited table. -/
theorem filter_status_clean (l : List (String × Bool))
    (hclean : ∀ e ∈ l, e.2 = false) (t : String) :
    (aset l t true).filter (fun e => e.2) = [(t, true)] := by
  unfold aset
  rw [List.filter_cons_of_pos (by rfl)]
  have : (aerase l t).filter (fun e => e.2) = [] := by
    rw [List.filter_eq_nil_iff]
    intro e he
    rw [hclean e (aerase_subset l t e he)]
    simp
  rw [this]

/-- Writing a table and checkpointing it, starting from a clean status
dict, yields exactly this state. -/
theorem addCheckpoint_single (st : PipState) (t : String) (v : Nat) (nm : String)
    (hclean : ∀ e ∈ st.status, e.2 = false) :
    addCheckpoint (addTablePipe st t v) nm =
      { ctx := aset st.ctx t v
        status := (aset st.status t true).map (fun e => (e.1, false))
        lastCheckpoint := aset st.lastCheckpoint t nm
        checkpoints := st.checkpoints ++ [⟨nm, aset st.lastCheckpoint t nm⟩]
        store := aset st.store (t, nm) v } := by
  unfold addCheckpoint addTablePipe
  have hedit : (((aset st.status t true).filter (fun e => e.2)).map
      (fun e => e.1)) = [t] := by
    rw [filter_status_clean st.status hclean t]
    rfl
  simp only [hedit, List.foldl_cons, List.foldl_nil, alookup_aset, if_pos]

/-- **C4**.  Writing table `T` and checkpointing at `C1`, then mutating `T`
and checkpointing at `C2`, `get_table(T, checkpoint_name=C1)` returns
exactly the version stored at `C1`, not the current mutated version.
(Starting from a state with no pending edited tables and no prior
checkpoint named `C1`.) -/
theorem get_table_round_trip (st0 : PipState) (t c1 c2 : String) (v1 v2 : Nat)
    (hclean : ∀ e ∈ st0.status, e.2 = false)
    (hfresh : ∀ cp ∈ st0.checkpoints, cp.name ≠ c1)
    (hc12 : c1 ≠ c2) (hc1 : c1 ≠ "") :
    getTable
      (addCheckpoint (addTablePipe (addCheckpoint (addTablePipe st0 t v1) c1) t v2) c2)
      t (some c1) = Except.ok (some v1) := by
  rw [addCheckpoint_single st0 t v1 c1 hclean]
  have hclean2 : ∀ e ∈ (aset st0.status t true).map
      (fun e => (e.1, false)), e.2 = false := by
    intro e he
    obtain ⟨a, _, rfl⟩ := List.mem_map.mp he
    rfl
  rw [addCheckpoint_single _ t v2 c2 hclean2]
  have hfind : List.find? (fun cp : CheckpointRec => decide (cp.name = c1))
      ((st0.checkpoints ++ [CheckpointRec.mk c1 (aset st0.lastCheckpoint t c1)]) ++
        [CheckpointRec.mk c2 (aset (aset st0.lastCheckpoint t c1) t c2)]) =
      some (CheckpointRec.mk c1 (aset st0.lastCheckpoint t c1)) := by
    rw [List.find?_append, List.find?_append]
    have h0 : st0.checkpoints.find?
        (fun cp : CheckpointRec => decide (cp.name = c1)) = none :=
      List.find?_eq_none.mpr (fun cp hcp => by simp [hfresh cp hcp])
    rw [h0]
    simp [List.find?]
  simp only [getTable, alookup_aset, if_pos, Option.isSome_some, Option.isNone_some,
    Bool.false_and, Bool.false_eq_true, if_false, hfind]
  simp only [Option.getD_some]
  rw [if_neg hc1]
  rw [if_neg (show ¬ some c2 = some c1 by simp [Ne.symm hc12])]
  rw [if_neg (show ¬ ((t, c1) = (t, c2)) by simp [hc12])]
  simp

/-- Witness for **C4**: write version 11 of table `persons`, checkpoint
`cp1`, mutate to version 22, checkpoint `cp2`; reading back at `cp1` gives
version 11. -/
theorem get_table_round_trip_witness :
    getTable
      (addCheckpoint
        (addTablePipe (addCheckpoint (addTablePipe pipEmpty "persons" 11) "cp1")
          "persons" 22) "cp2")
      "persons" (some "cp1") = Except.ok (some 11) :=
  get_table_round_trip pipEmpty "persons" "cp1" "cp2" 11 22
    (by intro e he; simp [pipEmpty] at he)
    (by intro cp hcp; simp [pipEmpty] at hcp)
    (by decide) (by decide)

theorem firstTrueAux_le (bs : List Bool) :
    ∀ (j : Nat), bs[j]? = some true →
      ∃ i, firstTrueAux bs = some i ∧ i ≤ j := by
  induction bs with
  | nil => intro j hj; simp at hj
  | cons b rest ih =>
    intro j hj
    by_cases hb : b
    · exact ⟨0, by simp [firstTrueAux, hb], Nat.zero_le j⟩
    · cases j with
      | zero =>
        simp at hj
        exact absurd hj hb
      | succ j =>
        have hj' : rest[j]? = some true := by simpa using hj
        obtain ⟨i, hi, hle⟩ := ih j hj'
        exact ⟨i + 1, by simp [firstTrueAux, hb, hi], by omega⟩

theorem firstTrue_le (bs : List Bool) (j : Nat) (hj : bs[j]? = some true) :
    firstTrue bs ≤ j := by
  obtain ⟨i, hi, hle⟩ := firstTrueAux_le bs j hj
  simpa [firstTrue, hi] using hle

theorem cumsum_length (l : List ℚ) : (cumsum l).length = l.length := by
  induction l with
  | nil => rfl
  | cons x xs ih => simp [cumsum, ih]

theorem cumsum_getElem? (l : List ℚ) :
    ∀ (j : Nat), j < l.length →
      (cumsum l)[j]? = some ((l.take (j + 1)).sum) := by
  induction l with
  | nil => intro j hj; simp at hj
  | cons x xs ih =>
    intro j hj
    cases j with
    | zero => simp [cumsum]
    | succ j =>
      have hj' : j < xs.length := by simpa using hj
      simp only [cumsum, List.getElem?_cons_succ, List.getElem?_map, ih j hj',
        Option.map_some', List.take_succ_cons, List.sum_cons]

theorem sum_map_div (l : List ℚ) (S : ℚ) :
    (l.map (fun x => x / S)).sum = l.sum / S := by
  induction l with
  | nil => simp
  | cons x xs ih => simp [ih, add_div]

theorem le_foldr_max (l : List Nat) : ∀ x ∈ l, x ≤ l.foldr max 0 := by
  induction l with
  | nil => intro x hx; simp at hx
  | cons y l ih =>
    intro x hx
    rcases List.mem_cons.mp hx with h | h
    · subst h
      exact Nat.le_max_left _ _
    · calc x ≤ l.foldr max 0 := ih x h
        _ ≤ max y (l.foldr max 0) := Nat.le_max_right _ _

/-- The inverse-CDF choice over a zero-padded, normalized row of positive
size terms never lands in the padding: the cumulative probability over the
real candidates is exactly 1, which exceeds any draw below 1, so the first
crossing happens at a real position. -/
theorem choosePosition_lt (sizes : List ℚ) (width : Nat) (rand : ℚ)
    (hne : sizes ≠ []) (hpos : ∀ s ∈ sizes, 0 < s)
    (hw : sizes.length ≤ width) (h1 : rand < 1) :
    choosePosition (rowProbs (padRow sizes width)) rand < sizes.length := by
  have hn : 0 < sizes.length := List.length_pos.mpr hne
  have hplen : (padRow sizes width).length = width := by
    simp only [padRow, List.length_append, List.length_replicate]
    omega
  have hsum : (padRow sizes width).sum = sizes.sum := by
    simp [padRow, List.sum_append, List.sum_replicate]
  have hS : 0 < sizes.sum := List.sum_pos sizes hpos hne
  have hprlen : (rowProbs (padRow sizes width)).length = width := by
    simp [rowProbs, hplen]
  have htake : (rowProbs (padRow sizes width)).take sizes.length =
      sizes.map (fun x => x / sizes.sum) := by
    calc (rowProbs (padRow sizes width)).take sizes.length
        = ((padRow sizes width).take sizes.length).map
            (fun x => x / (padRow sizes width).sum) := by
          rw [rowProbs, List.map_take]
      _ = sizes.map (fun x => x / sizes.sum) := by
          rw [hsum, padRow, List.take_left]
  have hcum : (cumsum (rowProbs (padRow sizes width)))[sizes.length - 1]? =
      some 1 := by
    rw [cumsum_getElem? _ (sizes.length - 1) (by rw [hprlen]; omega)]
    rw [Nat.sub_add_cancel hn, htake, sum_map_div, div_self (ne_of_gt hS)]
  have hbool : (((cumsum (rowProbs (padRow sizes width))).map
      (fun cp => decide (0 < cp - rand))))[sizes.length - 1]? = some true := by
    rw [List.getElem?_map, hcum]
    simp [sub_pos, h1]
  have hle := firstTrue_le _ (sizes.length - 1) hbool
  unfold choosePosition
  omega

/-- **C2**.  In `choose_MAZ_for_TAZ`, for every expanded TAZ-draw row the
selected alternative position is strictly below that row's real candidate
count — a zero-weight padding slot is never selected — for any draws in
[0, 1) and any nonempty candidate lists with positive size terms.  This is
exactly the source's `assert (positions < maz_counts).all()`
(tour_od.py:479). -/
theorem choose_maz_padding_safety (sample : List TazRow)
    (mazSizes : List MazRow) (rands : List ℚ)
    (hsize : ∀ m ∈ mazSizes, 0 < m.size)
    (hcand : ∀ s ∈ sample, candidates mazSizes s.taz ≠ [])
    (hrand : ∀ q ∈ rands, 0 ≤ q ∧ q < 1) :
    ∀ cr ∈ chooseMAZrows sample mazSizes rands, cr.pos < cr.count := by
  intro cr hcr
  simp only [chooseMAZrows] at hcr
  obtain ⟨⟨e, q⟩, herz, hcr_eq⟩ := List.mem_map.mp hcr
  obtain ⟨hexp, hq⟩ := List.of_mem_zip herz
  obtain ⟨s, hs, he⟩ := List.mem_flatMap.mp hexp
  have he' := List.eq_of_mem_replicate he
  subst he'
  subst hcr_eq
  show choosePosition _ q < (candidates mazSizes s.taz).length
  have hlen : (candidates mazSizes s.taz).length =
      ((candidates mazSizes s.taz).map (fun m => m.size)).length := by
    rw [List.length_map]
  rw [hlen]
  apply choosePosition_lt
  · simp [hcand s hs]
  · intro x hx
    obtain ⟨m, hm, rfl⟩ := List.mem_map.mp hx
    exact hsize m (List.mem_of_mem_filter hm)
  · rw [List.length_map]
    exact le_foldr_max _ _
      (List.mem_map_of_mem (fun e => (candidates mazSizes e.2.1).length) hexp)
  · exact (hrand q hq).2

/-- Witness for **C2**: one chooser with `pick_count = 2` over a TAZ with
two positive-size MAZs, draws 1/4 and 9/10. -/
theorem choose_maz_padding_safety_witness :
    (∀ q ∈ randsFix2, 0 ≤ q ∧ q < 1) ∧
    (∀ cr ∈ chooseMAZrows sampleFix2 mazSizesFix2 randsFix2,
      cr.pos < cr.count) := by
  have hrand : ∀ q ∈ randsFix2, 0 ≤ q ∧ q < 1 := by
    intro q hq
    simp only [randsFix2, List.mem_cons, List.not_mem_nil, or_false] at hq
    rcases hq with rfl | rfl <;> norm_num
  have hsize : ∀ m ∈ mazSizesFix2, 0 < m.size := by
    intro x hx
    simp only [mazSizesFix2, List.mem_cons, List.not_mem_nil, or_false] at hx
    rcases hx with rfl | rfl <;> norm_num
  have hcand : ∀ s ∈ sampleFix2, candidates mazSizesFix2 s.taz ≠ [] := by
    intro s hs
    simp only [sampleFix2, List.mem_cons, List.not_mem_nil, or_false] at hs
    subst hs
    simp [candidates, mazSizesFix2]
  exact ⟨hrand,
    choose_maz_padding_safety sampleFix2 mazSizesFix2 randsFix2 hsize hcand hrand⟩

theorem findGroup_some_key {l : List GroupRow} {c m : Nat} {g : GroupRow}
    (h : findGroup l c m = some g) : g.chooser = c ∧ g.maz = m := by
  induction l with
  | nil => simp [findGroup] at h
  | cons g0 l ih =>
    by_cases hg0 : g0.chooser = c ∧ g0.maz = m
    · rw [findGroup, if_pos hg0, Option.some.injEq] at h
      subst h
      exact hg0
    · rw [findGroup, if_neg hg0] at h
      exact ih h

theorem findGroup_some_mem {l : List GroupRow} {c m : Nat} {g : GroupRow}
    (h : findGroup l c m = some g) : g ∈ l := by
  induction l with
  | nil => simp [findGroup] at h
  | cons g0 l ih =>
    by_cases hg0 : g0.chooser = c ∧ g0.maz = m
    · rw [findGroup, if_pos hg0, Option.some.injEq] at h
      exact h ▸ List.mem_cons_self _ _
    · rw [findGroup, if_neg hg0] at h
      exact List.mem_cons_of_mem _ (ih h)

theorem findGroup_isSome_of_mem {l : List GroupRow} {g : GroupRow}
    (hg : g ∈ l) : (findGroup l g.chooser g.maz).isSome := by
  induction l with
  | nil => simp at hg
  | cons g0 l ih =>
    by_cases hg0 : g0.chooser = g.chooser ∧ g0.maz = g.maz
    · rw [findGroup, if_pos hg0]
      rfl
    · rcases List.mem_cons.mp hg with h | h
      · subst h
        exact absurd ⟨rfl, rfl⟩ hg0
      · rw [findGroup, if_neg hg0]
        exact ih h

theorem findGroup_append (l1 l2 : List GroupRow) (c m : Nat) :
    findGroup (l1 ++ l2) c m = (findGroup l1 c m).or (findGroup l2 c m) := by
  induction l1 with
  | nil => simp [findGroup]
  | cons g l ih =>
    by_cases hg : g.chooser = c ∧ g.maz = m
    · rw [List.cons_append, findGroup, if_pos hg, findGroup, if_pos hg]
      rfl
    · rw [List.cons_append, findGroup, if_neg hg, findGroup, if_neg hg, ih]

theorem findGroup_map_key (l : List GroupRow) (f : GroupRow → GroupRow)
    (hf : ∀ g, (f g).chooser = g.chooser ∧ (f g).maz = g.maz) (c m : Nat) :
    findGroup (l.map f) c m = (findGroup l c m).map f := by
  induction l with
  | nil => rfl
  | cons g l ih =>
    rw [List.map_cons, findGroup, (hf g).1, (hf g).2]
    by_cases hg : g.chooser = c ∧ g.maz = m
    · rw [if_pos hg, findGroup, if_pos hg, Option.map_some']
    · rw [if_neg hg, findGroup, if_neg hg, ih]

theorem groupStep_findGroup (acc : List GroupRow) (r : ChoiceRow) (c m : Nat) :
    findGroup (groupStep acc r) c m =
      if r.chooser = c ∧ r.maz = m then
        match findGroup acc c m with
        | some g => some { g with pickCount := g.pickCount + 1 }
        | none => some { chooser := c, maz := m, prob := r.prob, pickCount := 1 }
      else findGroup acc c m := by
  have hf : ∀ g : GroupRow,
      ((if g.chooser = r.chooser ∧ g.maz = r.maz then
        { g with pickCount := g.pickCount + 1 } else g) : GroupRow).chooser = g.chooser ∧
      ((if g.chooser = r.chooser ∧ g.maz = r.maz then
        { g with pickCount := g.pickCount + 1 } else g) : GroupRow).maz = g.maz := by
    intro g
    split <;> exact ⟨rfl, rfl⟩
  by_cases hs : (findGroup acc r.chooser r.maz).isSome
  · rw [groupStep, if_pos hs, findGroup_map_key _ _ hf c m]
    by_cases hkey : r.chooser = c ∧ r.maz = m
    · obtain ⟨hc, hm⟩ := hkey
      subst hc
      subst hm
      rw [if_pos ⟨rfl, rfl⟩]
      cases hfg : findGroup acc r.chooser r.maz with
      | none => rw [hfg] at hs; simp at hs
      | some g =>
        simp only [Option.map_some']
        have hgk := findGroup_some_key hfg
        rw [if_pos hgk]
    · rw [if_neg hkey]
      cases hfg : findGroup acc c m with
      | none => simp
      | some g =>
        simp only [Option.map_some']
        have hgk := findGroup_some_key hfg
        have hne : ¬ (g.chooser = r.chooser ∧ g.maz = r.maz) := by
          intro hh
          exact hkey ⟨hh.1.symm.trans hgk.1, hh.2.symm.trans hgk.2⟩
        rw [if_neg hne]
  · rw [groupStep, if_neg hs, findGroup_append]
    by_cases hkey : r.chooser = c ∧ r.maz = m
    · obtain ⟨hc, hm⟩ := hkey
      subst hc
      subst hm
      rw [if_pos ⟨rfl, rfl⟩, Option.not_isSome_iff_eq_none.mp hs, Option.none_or]
      rw [findGroup, if_pos ⟨rfl, rfl⟩]
    · rw [if_neg hkey]
      have h2 : findGroup [⟨r.chooser, r.maz, r.prob, 1⟩] c m = none := by
        rw [findGroup, if_neg hkey]
        rfl
      rw [h2, Option.or_none]

theorem regroup_findGroup (rows : List ChoiceRow) :
    ∀ (acc : List GroupRow) (c m : Nat),
      findGroup (rows.foldl groupStep acc) c m =
        match findGroup acc c m with
        | some g =>
            some { g with pickCount := g.pickCount + (matchRows rows c m).length }
        | none =>
          (matchRows rows c m).head?.map (fun r0 =>
            { chooser := c, maz := m, prob := r0.prob,
              pickCount := (matchRows rows c m).length }) := by
  induction rows with
  | nil =>
    intro acc c m
    simp only [List.foldl_nil, matchRows, List.filter_nil, List.length_nil]
    cases hfg : findGroup acc c m with
    | none => rfl
    | some g => simp
  | cons r rest ih =>
    intro acc c m
    rw [List.foldl_cons, ih (groupStep acc r) c m, groupStep_findGroup acc r c m]
    by_cases hkey : r.chooser = c ∧ r.maz = m
    · rw [if_pos hkey]
      have hkm : keyMatch c m r = true := decide_eq_true hkey
      have hmr : matchRows (r :: rest) c m = r :: matchRows rest c m := by
        simp [matchRows, List.filter_cons, hkm]
      rw [hmr]
      cases hfg : findGroup acc c m with
      | some g =>
        simp only [List.length_cons]
        have harith : g.pickCount + 1 + (matchRows rest c m).length =
            g.pickCount + ((matchRows rest c m).length + 1) := by omega
        rw [harith]
      | none =>
        simp only [List.head?_cons, Option.map_some', List.length_cons]
        rw [Nat.add_comm 1 (matchRows rest c m).length]
    · rw [if_neg hkey]
      have hkm : keyMatch c m r = false := decide_eq_false hkey
      have hmr : matchRows (r :: rest) c m = matchRows rest c m := by
        simp [matchRows, List.filter_cons, hkm]
      rw [hmr]

theorem groupStep_uniq (acc : List GroupRow) (r : ChoiceRow)
    (h : UniqKeys acc) : UniqKeys (groupStep acc r) := by
  intro g hg
  rw [groupStep_findGroup]
  unfold groupStep at hg
  by_cases hs : (findGroup acc r.chooser r.maz).isSome
  · rw [if_pos hs] at hg
    obtain ⟨g0, hg0, hgeq⟩ := List.mem_map.mp hg
    by_cases hg0k : g0.chooser = r.chooser ∧ g0.maz = r.maz
    · rw [if_pos hg0k] at hgeq
      subst hgeq
      rw [if_pos (show r.chooser = g0.chooser ∧ r.maz = g0.maz from
        ⟨hg0k.1.symm, hg0k.2.symm⟩)]
      rw [h g0 hg0]
    · rw [if_neg hg0k] at hgeq
      subst hgeq
      rw [if_neg (show ¬ (r.chooser = g0.chooser ∧ r.maz = g0.maz) from
        fun hh => hg0k ⟨hh.1.symm, hh.2.symm⟩)]
      exact h g0 hg0
  · rw [if_neg hs] at hg
    rcases List.mem_append.mp hg with hga | hgn
    · have hne : ¬ (r.chooser = g.chooser ∧ r.maz = g.maz) := by
        intro hh
        apply hs
        rw [hh.1, hh.2, h g hga]
        rfl
      rw [if_neg hne]
      exact h g hga
    · rw [List.mem_singleton] at hgn
      subst hgn
      rw [if_pos (show r.chooser = _ ∧ r.maz = _ from ⟨rfl, rfl⟩)]
      rw [Option.not_isSome_iff_eq_none.mp hs]

theorem foldl_groupStep_uniq (rows : List ChoiceRow) :
    ∀ acc, UniqKeys acc → UniqKeys (rows.foldl groupStep acc) := by
  induction rows with
  | nil => intro acc h; exact h
  | cons r rest ih =>
    intro acc h
    rw [List.foldl_cons]
    exact ih _ (groupStep_uniq acc r h)

theorem regroup_uniq (rows : List ChoiceRow) : UniqKeys (regroup rows) :=
  foldl_groupStep_uniq rows [] (by intro g hg; simp at hg)

/-- **C3**.  In `choose_MAZ_for_TAZ`: every expanded row's joint probability
is the TAZ-level draw probability (carried from its sample row) times the
chosen MAZ's conditional probability (tour_od.py:485); and the final
regroup over `(chooser, MAZ)` gives each output row a `pick_count` equal to
the number of duplicate expanded rows collapsed and a `prob` equal to the
first-seen joint probability — probabilities are never summed or scaled by
`pick_count` — with one output row per distinct expanded-row key. -/
theorem choose_maz_prob_contract (sample : List TazRow) (mazSizes : List MazRow)
    (rands : List ℚ) :
    (∀ cr ∈ chooseMAZrows sample mazSizes rands,
        cr.prob = cr.tazProb * cr.mazProb ∧
        ∃ s ∈ sample, cr.chooser = s.chooser ∧ cr.taz = s.taz ∧
          cr.tazProb = s.prob) ∧
    (∀ g ∈ chooseMAZforTAZ sample mazSizes rands,
        g.pickCount =
          (matchRows (chooseMAZrows sample mazSizes rands) g.chooser g.maz).length ∧
        (matchRows (chooseMAZrows sample mazSizes rands) g.chooser g.maz).head?.map
          (fun r => r.prob) = some g.prob) ∧
    (∀ r ∈ chooseMAZrows sample mazSizes rands,
        ∃ g ∈ chooseMAZforTAZ sample mazSizes rands,
          g.chooser = r.chooser ∧ g.maz = r.maz) := by
  refine ⟨?_, ?_, ?_⟩
  · intro cr hcr
    simp only [chooseMAZrows] at hcr
    obtain ⟨⟨e, q⟩, herz, hcr_eq⟩ := List.mem_map.mp hcr
    obtain ⟨hexp, _⟩ := List.of_mem_zip herz
    obtain ⟨s, hs, he⟩ := List.mem_flatMap.mp hexp
    have he' := List.eq_of_mem_replicate he
    subst he'
    subst hcr_eq
    exact ⟨rfl, s, hs, rfl, rfl, rfl⟩
  · intro g hg
    have huni := regroup_uniq (chooseMAZrows sample mazSizes rands) g hg
    unfold regroup at huni
    rw [regroup_findGroup (chooseMAZrows sample mazSizes rands) [] g.chooser g.maz]
      at huni
    cases hmr : matchRows (chooseMAZrows sample mazSizes rands) g.chooser g.maz with
    | nil =>
      rw [hmr] at huni
      simp [findGroup] at huni
    | cons r0 rest =>
      rw [hmr] at huni
      simp only [findGroup, List.head?_cons, Option.map_some',
        Option.some.injEq] at huni
      constructor
      · rw [← huni]
      · rw [← huni]
        rfl
  · intro r hr
    have hmem : r ∈ matchRows (chooseMAZrows sample mazSizes rands)
        r.chooser r.maz := by
      unfold matchRows
      rw [List.mem_filter]
      exact ⟨hr, decide_eq_true ⟨rfl, rfl⟩⟩
    have hfind := regroup_findGroup (chooseMAZrows sample mazSizes rands) []
      r.chooser r.maz
    cases hmr : matchRows (chooseMAZrows sample mazSizes rands)
        r.chooser r.maz with
    | nil => rw [hmr] at hmem; exact absurd hmem (List.not_mem_nil r)
    | cons r0 rest =>
      rw [hmr] at hfind
      simp only [findGroup, List.head?_cons, Option.map_some'] at hfind
      refine ⟨_, findGroup_some_mem hfind, rfl, rfl⟩

/-- Witness for **C3**: on the one-draw fixture the pipeline produces a
single expanded row and a single output group whose pick count matches the
collapsed duplicates. -/
theorem choose_maz_prob_contract_witness :
    ∃ g ∈ chooseMAZforTAZ sampleFix mazSizesFix randsFix,
      g.chooser = 1 ∧ g.maz = 100 ∧
      g.pickCount =
        (matchRows (chooseMAZrows sampleFix mazSizesFix randsFix)
          g.chooser g.maz).length := by
  have h := choose_maz_prob_contract sampleFix mazSizesFix randsFix
  have hrows : chooseMAZrows sampleFix mazSizesFix randsFix =
      [⟨1, 10, 1/2, 1, 0, 100, 1, 1/2⟩] := by
    norm_num [chooseMAZrows, sampleFix, mazSizesFix, randsFix, expandTaz,
      maxMazCount, candidates, rowProbs, padRow, choosePosition, cumsum,
      firstTrue, firstTrueAux]
  obtain ⟨g, hg, hc, hm⟩ := h.2.2 ⟨1, 10, 1/2, 1, 0, 100, 1, 1/2⟩
    (by rw [hrows]; exact List.mem_singleton_self _)
  exact ⟨g, hg, hc, hm, (h.2.1 g hg).1⟩

theorem alookup_append {α β : Type} [DecidableEq α] (l1 l2 : List (α × β))
    (k : α) : alookup (l1 ++ l2) k = (alookup l1 k).or (alookup l2 k) := by
  induction l1 with
  | nil => simp [alookup]
  | cons e l ih =>
    by_cases he : e.1 = k
    · rw [List.cons_append, alookup, if_pos he, alookup, if_pos he]
      rfl
    · rw [List.cons_append, alookup, if_neg he, alookup, if_neg he, ih]

theorem alookup_eq_none {α β : Type} [DecidableEq α] (l : List (α × β)) (k : α)
    (h : ∀ e ∈ l, e.1 ≠ k) : alookup l k = none := by
  induction l with
  | nil => rfl
  | cons e l ih =>
    rw [alookup, if_neg (h e (List.mem_cons_self _ _))]
    exact ih (fun e' he' => h e' (List.mem_cons_of_mem _ he'))

theorem alookup_fillMap (cells : List ((Int × String) × Cell)) (c : String)
    (k : Int × String) :
    alookup (cells.map (fun e =>
      (e.1, if e.1.2 = c ∧ e.2 = Cell.na then Cell.cstr "" else e.2))) k =
    (alookup cells k).map
      (fun v => if k.2 = c ∧ v = Cell.na then Cell.cstr "" else v) := by
  induction cells with
  | nil => rfl
  | cons e l ih =>
    by_cases he : e.1 = k
    · rw [List.map_cons, alookup, if_pos he, alookup, if_pos he,
        Option.map_some', he]
    · rw [List.map_cons, alookup, if_neg he, alookup, if_neg he, ih]

theorem alookup_fills (index : List Int) (cells : List ((Int × String) × Cell))
    (c : String) (i : Int) :
    alookup (index.filterMap (fun j =>
      if (alookup cells (j, c)).isNone then some ((j, c), Cell.cstr "")
      else none)) (i, c) =
    if i ∈ index ∧ (alookup cells (i, c)).isNone then some (Cell.cstr "")
    else none := by
  induction index with
  | nil => simp [alookup]
  | cons j rest ih =>
    by_cases hj : (alookup cells (j, c)).isNone
    · have hstep : (List.filterMap (fun j =>
          if (alookup cells (j, c)).isNone then some ((j, c), Cell.cstr "")
          else none) (j :: rest)) =
          ((j, c), Cell.cstr "") :: (List.filterMap (fun j =>
          if (alookup cells (j, c)).isNone then some ((j, c), Cell.cstr "")
          else none) rest) := by
        rw [List.filterMap_cons, if_pos hj]
      rw [hstep]
      by_cases hij : j = i
      · subst hij
        rw [alookup, if_pos rfl]
        rw [if_pos ⟨List.mem_cons_self _ _, hj⟩]
      · have hkey : ¬ (((j, c) : Int × String) = (i, c)) := by
          simp [hij]
        rw [alookup, if_neg hkey, ih]
        by_cases hmem : i ∈ rest ∧ (alookup cells (i, c)).isNone
        · rw [if_pos hmem, if_pos ⟨List.mem_cons_of_mem _ hmem.1, hmem.2⟩]
        · rw [if_neg hmem, if_neg]
          intro hh
          rcases List.mem_cons.mp hh.1 with h | h
          · exact hij h.symm
          · exact hmem ⟨h, hh.2⟩
    · have hstep : (List.filterMap (fun j =>
          if (alookup cells (j, c)).isNone then some ((j, c), Cell.cstr "")
          else none) (j :: rest)) =
          (List.filterMap (fun j =>
          if (alookup cells (j, c)).isNone then some ((j, c), Cell.cstr "")
          else none) rest) := by
        rw [List.filterMap_cons, if_neg hj]
      rw [hstep, ih]
      by_cases hmem : i ∈ rest ∧ (alookup cells (i, c)).isNone
      · rw [if_pos hmem, if_pos ⟨List.mem_cons_of_mem _ hmem.1, hmem.2⟩]
      · rw [if_neg hmem, if_neg]
        intro hh
        rcases List.mem_cons.mp hh.1 with h | h
        · subst h
          exact hj hh.2
        · exact hmem ⟨h, hh.2⟩

theorem getCell_fillnaCol_self (df : DF) (c : String) (i : Int)
    (hi : i ∈ df.index) :
    getCell (fillnaCol df c) i c =
      if getCell df i c = Cell.na then Cell.cstr "" else getCell df i c := by
  unfold getCell fillnaCol
  rw [alookup_append, alookup_fillMap, alookup_fills]
  cases halo : alookup df.cells (i, c) with
  | none =>
    rw [if_pos ⟨hi, rfl⟩]
    simp
  | some v =>
    by_cases hv : v = Cell.na
    · subst hv
      simp
    · simp [hv]

theorem getCell_fillnaCol_other (df : DF) (c c' : String) (hne : c' ≠ c)
    (i : Int) : getCell (fillnaCol df c) i c' = getCell df i c' := by
  unfold getCell fillnaCol
  rw [alookup_append, alookup_fillMap]
  have hfill : alookup (df.index.filterMap (fun j =>
      if (alookup df.cells (j, c)).isNone then some ((j, c), Cell.cstr "")
      else none)) (i, c') = none := by
    apply alookup_eq_none
    intro e he
    obtain ⟨j, _, hj⟩ := List.mem_filterMap.mp he
    by_cases hjn : (alookup df.cells (j, c)).isNone
    · rw [if_pos hjn, Option.some.injEq] at hj
      subst hj
      simp [hne.symm]
    · rw [if_neg hjn] at hj
      exact absurd hj (Option.noConfusion)
  rw [hfill]
  cases halo : alookup df.cells (i, c') with
  | none => simp
  | some v =>
    simp [hne]

theorem foldl_fillnaCol_index (ms : List String) :
    ∀ d : DF, (ms.foldl fillnaCol d).index = d.index := by
  induction ms with
  | nil => intro d; rfl
  | cons m ms ih => intro d; rw [List.foldl_cons, ih]; rfl

theorem foldl_fillnaCol_cols (ms : List String) :
    ∀ d : DF, (ms.foldl fillnaCol d).cols = d.cols := by
  induction ms with
  | nil => intro d; rfl
  | cons m ms ih => intro d; rw [List.foldl_cons, ih]; rfl

theorem getCell_foldl_preserve (ms : List String) :
    ∀ (d : DF) (c : String) (i : Int), i ∈ d.index →
      getCell d i c ≠ Cell.na →
      getCell (ms.foldl fillnaCol d) i c = getCell d i c := by
  induction ms with
  | nil => intro d c i _ _; rfl
  | cons m ms ih =>
    intro d c i hi hne
    rw [List.foldl_cons]
    by_cases hmc : c = m
    · subst hmc
      have h1 : getCell (fillnaCol d c) i c = getCell d i c := by
        rw [getCell_fillnaCol_self d c i hi, if_neg hne]
      rw [ih (fillnaCol d c) c i hi (by rw [h1]; exact hne), h1]
    · have h1 : getCell (fillnaCol d m) i c = getCell d i c :=
        getCell_fillnaCol_other d m c hmc i
      rw [ih (fillnaCol d m) c i hi (by rw [h1]; exact hne), h1]

theorem getCell_foldl_fill (ms : List String) :
    ∀ (d : DF) (c : String), c ∈ ms → ∀ i ∈ d.index,
      getCell d i c = Cell.na →
      getCell (ms.foldl fillnaCol d) i c = Cell.cstr "" := by
  induction ms with
  | nil => intro d c hc; exact absurd hc (List.not_mem_nil c)
  | cons m ms ih =>
    intro d c hc i hi hna
    rw [List.foldl_cons]
    by_cases hmc : c = m
    · subst hmc
      have h1 : getCell (fillnaCol d c) i c = Cell.cstr "" := by
        rw [getCell_fillnaCol_self d c i hi, if_pos hna]
      rw [getCell_foldl_preserve ms (fillnaCol d c) c i hi
        (by rw [h1]; intro h; cases h), h1]
    · rcases List.mem_cons.mp hc with h | h
      · exact absurd h hmc
      · have h1 : getCell (fillnaCol d m) i c = getCell d i c :=
          getCell_fillnaCol_other d m c hmc i
        exact ih (fillnaCol d m) c h i hi (by rw [h1]; exact hna)

/-- **C5**.  `extend_table` on axis 0: with an overlapping index between
the existing table and the new rows the disjointness assertion fails; with
disjoint indices it appends the rows, preserves the existing table's
column order (the old column names are a prefix of the result's), and
backfills every existing object-dtype column absent from the new rows with
the empty string — never a null — on every appended row.  (Hypotheses:
cells of the existing table lie on its own index, and cells of the new
frame lie in its declared columns.) -/
theorem extend_table_axis0 (old df : DF)
    (hold : ∀ e ∈ old.cells, e.1.1 ∈ old.index)
    (hnew : ∀ e ∈ df.cells,
      (df.cols.map (fun cd => cd.1)).contains e.1.2 = true) :
    (old.index.any (fun i => df.index.contains i) = true →
      extendTable (some old) df 0 =
        Except.error "assert len(table_df.index.intersection(df.index)) == 0") ∧
    (old.index.any (fun i => df.index.contains i) = false →
      ∃ r, extendTable (some old) df 0 = Except.ok r ∧
        r.index = old.index ++ df.index ∧
        (old.cols.map (fun cd => cd.1)) <+: (r.cols.map (fun cd => cd.1)) ∧
        (∀ cd ∈ old.cols, cd.2 = Dtype.obj →
          (df.cols.map (fun nd => nd.1)).contains cd.1 = false →
          ∀ i ∈ df.index, getCell r i cd.1 = Cell.cstr "")) := by
  constructor
  · intro hoverlap
    rw [List.any_eq_true] at hoverlap
    obtain ⟨x, hx1, hx2⟩ := hoverlap
    simp only [extendTable]
    rw [if_pos trivial]
    rw [if_pos (List.any_eq_true.mpr ⟨x, hx1, hx2⟩)]
    rw [if_neg (show ¬((0 : Nat) ≠ 0 ∧ (0 : Nat) ≠ 1) by decide)]
  · intro hdisj
    refine ⟨((old.cols.filter (fun cd =>
        cd.2 = Dtype.obj ∧
        !(df.cols.map (fun nd => nd.1)).contains cd.1)).map
          (fun cd => cd.1)).foldl fillnaCol (concatRows old df), ?_, ?_, ?_, ?_⟩
    · simp only [extendTable]
      rw [if_pos trivial]
      rw [if_neg (show ¬((old.index.any fun i => df.index.contains i) = true) by
        rw [hdisj]; exact Bool.false_ne_true)]
      rw [if_neg (show ¬((0 : Nat) ≠ 0 ∧ (0 : Nat) ≠ 1) by decide)]
    · rw [foldl_fillnaCol_index]
      rfl
    · rw [foldl_fillnaCol_cols]
      show (old.cols.map (fun cd => cd.1)) <+:
        ((old.cols ++ df.cols.filter (fun cd =>
          !(old.cols.map (fun od => od.1)).contains cd.1)).map (fun cd => cd.1))
      rw [List.map_append]
      exact List.prefix_append _ _
    · intro cd hcd hobj habs i hi
      have hna : getCell (concatRows old df) i cd.1 = Cell.na := by
        unfold getCell concatRows
        rw [alookup_append]
        have h1 : alookup old.cells (i, cd.1) = none := by
          apply alookup_eq_none
          intro e he hkey
          have hmem := hold e he
          rw [hkey] at hmem
          have hni := List.any_eq_false.mp hdisj i hmem
          exact hni (by simpa using hi)
        have h2 : alookup df.cells (i, cd.1) = none := by
          apply alookup_eq_none
          intro e he hkey
          have hmem := hnew e he
          rw [hkey] at hmem
          rw [habs] at hmem
          exact Bool.false_ne_true hmem
        rw [h1, h2]
        rfl
      have hc : cd.1 ∈ (old.cols.filter (fun cd =>
          cd.2 = Dtype.obj ∧
          !(df.cols.map (fun nd => nd.1)).contains cd.1)).map (fun cd => cd.1) := by
        apply List.mem_map_of_mem
        rw [List.mem_filter]
        refine ⟨hcd, ?_⟩
        rw [habs]
        exact decide_eq_true ⟨hobj, rfl⟩
      have hic : i ∈ (concatRows old df).index := by
        show i ∈ old.index ++ df.index
        exact List.mem_append_right _ hi
      exact getCell_foldl_fill _ (concatRows old df) cd.1 hc i hic hna

/-- Witness for **C5**: appending a disjoint row backfills the missing
object column `name` with `""`, and an overlapping index fails the
assertion. -/
theorem extend_table_axis0_witness :
    extendTable (some dfOld) dfOverlap 0 =
      Except.error "assert len(table_df.index.intersection(df.index)) == 0" ∧
    ∃ r, extendTable (some dfOld) dfNew 0 = Except.ok r ∧
      r.index = [1, 2] ++ [3] ∧ getCell r 3 "name" = Cell.cstr "" := by
  constructor
  · exact (extend_table_axis0 dfOld dfOverlap (by decide) (by decide)).1 (by decide)
  · obtain ⟨r, hr, hidx, _, hfill⟩ :=
      (extend_table_axis0 dfOld dfNew (by decide) (by decide)).2 (by decide)
    exact ⟨r, hr, hidx, hfill ("name", Dtype.obj) (by decide) rfl (by decide)
      3 (by decide)⟩

end ActivitySim
